import Mathlib

/-!
Verification of the SynRD synthesizer core (`SynRD/synthesizers/synthesizer.py`)
against its natural-language specification.

The shallow embedding models a pandas dataframe as an ordered list of named
columns, each column a list of integer scalars (integer / category-code data;
columns carry no nulls, so `nunique` is the number of distinct values and
`count` is the column length).  Numeric Python values (ints and floats) are
embedded as exact rationals where arithmetic matters.  Python exceptions are
modelled by an error enumeration matching the spec's taxonomy, with the
source's `ValueError`/`TypeError` raises mapped to the spec's error names at
the raise site they implement.  External collaborators (the wrapped smartnoise
mechanisms, the `TableTransformer`, pandas `qcut`) are parameters of the
embedded operations: the adapter code under verification is translated
faithfully, the collaborator behaviour is supplied by the theorems.
-/

attribute [local semireducible] Rat.mul Rat.inv Rat.add Rat.sub

namespace SynRD

/-- Error taxonomy of the spec (section 7); each constructor stands for the
`ValueError`/`TypeError`/assertion raise sites of the source that the spec
names `ConfigurationError`, `ValidationError`, `BudgetExhaustedError` and
`StateError`. -/
inductive Err where
  | configuration
  | validation
  | budget
  | state
deriving DecidableEq, Repr

/-- A column of scalar values (integer / category-code data). -/
abbrev Col := List Int

/-- A dataframe: ordered, named columns. -/
abbrev Df := List (String × Col)

/-- The range-transform state: column name to the amount subtracted by the
forward pass (`self.range_transform` in the source). -/
abbrev Transform := List (String × Int)

/-! ## Range transform (`slide_range_forward` / `slide_range_backward`, lines 116-130) -/

/-- One column of the forward pass: `if min(df[c]) > 0: transform[c] = min(df[c]);
df[c] = df[c] - min(df[c])`.  Returns the (possibly shifted) column together
with the optional transform entry; `none` when the column is empty (Python's
`min` raises there). -/
def slideCol (p : String × Col) : Option ((String × Col) × Option (String × Int)) :=
  match p.2.min? with
  | none => none
  | some m =>
    if 0 < m then some ((p.1, p.2.map (fun x => x - m)), some (p.1, m))
    else some (p, none)

/-- Forward pass over all columns, in order. -/
def slideAll : Df → Option (List ((String × Col) × Option (String × Int)))
  | [] => some []
  | p :: rest =>
    match slideCol p, slideAll rest with
    | some r, some rs => some (r :: rs)
    | _, _ => none

/-- `Synthesizer.slide_range_forward` (lines 116-123): shift every column whose
minimum is strictly positive down by that minimum, recording the amount. -/
def slide_range_forward (df : Df) : Option (Df × Transform) :=
  (slideAll df).map (fun l => (l.map Prod.fst, l.filterMap Prod.snd))

/-- Dictionary lookup `transform[c]` / membership test `c in transform`. -/
def lookupT (t : Transform) (c : String) : Option Int :=
  (t.find? (fun e => e.1 == c)).map Prod.snd

/-- One column of the backward pass: `if c in transform: df[c] = df[c] + transform[c]`. -/
def restoreCol (t : Transform) (p : String × Col) : String × Col :=
  match lookupT t p.1 with
  | some m => (p.1, p.2.map (fun x => x + m))
  | none => p

/-- `Synthesizer.slide_range_backward` (lines 125-130). -/
def slide_range_backward (df : Df) (t : Transform) : Df :=
  df.map (restoreCol t)

/-! ## Column classifier (`Synthesizer._categorical_continuous`, lines 104-114) -/

/-- `df[col].nunique()`: number of distinct values (no nulls in the embedding). -/
def nunique (c : Col) : Nat := c.dedup.length

/-- `df[col].count()`: number of (non-null) values. -/
def colCount (c : Col) : Nat := c.length

/-- The classifier's per-column ratio `float(df[col].nunique()) / df[col].count()`. -/
def colRatio (c : Col) : Rat := (nunique c : Rat) / (colCount c : Rat)

/-- `Synthesizer._categorical_continuous`: a column is categorical/ordinal
exactly when its distinct ratio is strictly below the threshold, else
continuous; two name lists are returned in column order. -/
def categorical_continuous (thresh : Rat) : Df → List String × List String
  | [] => ([], [])
  | p :: rest =>
    let r := categorical_continuous thresh rest
    if colRatio p.2 < thresh then (p.1 :: r.1, r.2) else (r.1, p.1 :: r.2)

/-- The all-categorical test used by `MSTSynthesizer.fit`, `AIMSynthesizer.fit`,
`GEMSynthesizer.fit` and `PrivBayes.fit`:
`len(categorical) == len(list(df.columns))`. -/
def categoricalCheck (thresh : Rat) (df : Df) : Bool :=
  (categorical_continuous thresh df).1.length == df.length

/-! ## Constructor option validation (`Synthesizer.__init__` and the variant
constructors, lines 34-73, 156-194, 238-270, 314-364, 412-426, 456-466,
509-538, 557-598) -/

/-- A Python scalar value as it reaches the constructors: `None`, `bool`,
`int`, `float` or `str`. -/
inductive PyVal where
  | vNone
  | vBool (b : Bool)
  | vInt (z : Int)
  | vFloat (q : Rat)
  | vStr (s : String)
deriving DecidableEq, Repr

/-- The declared option types used by the constructors. -/
inductive PyType where
  | pyBool
  | pyInt
  | pyFloat
  | pyStr
deriving DecidableEq, Repr

/-- Python's `isinstance` for these values; `bool` is a subclass of `int` in
Python, so a bool is an instance of both `bool` and `int`. -/
def isinstance : PyVal → PyType → Bool
  | .vBool _, .pyBool => true
  | .vBool _, .pyInt => true
  | .vInt _, .pyInt => true
  | .vFloat _, .pyFloat => true
  | .vStr _, .pyStr => true
  | _, _ => false

/-- `isinstance(x, (int, float))`, the epsilon check of the base constructor. -/
def isNumeric (v : PyVal) : Bool :=
  isinstance v .pyInt || isinstance v .pyFloat

/-- Python's `float(x)` on the numeric values, as an exact rational. -/
def pyFloatQ : PyVal → Rat
  | .vBool b => if b then 1 else 0
  | .vInt z => (z : Rat)
  | .vFloat q => q
  | _ => 0

/-- Coercion wrapper: `float(x)` returning a value. -/
def toFloatVal (v : PyVal) : PyVal := .vFloat (pyFloatQ v)

/-- The shared option-processing step of every constructor (lines 62-73 and
the per-variant copies): an absent (`None`) value is replaced by the declared
default; a supplied `int` for a `float`-typed option is converted with
`float(...)`; any value that then fails `isinstance` against the declared type
raises (`TypeError`, the spec's `ConfigurationError`). -/
def processParam (ty : PyType) (dflt : PyVal) (v : PyVal) : Except Err PyVal :=
  match v with
  | .vNone => .ok dflt
  | v =>
    let v := if isinstance v .pyInt && (ty == .pyFloat) then toFloatVal v else v
    if isinstance v ty then .ok v else .error .configuration

/-- State produced by the base constructor (`Synthesizer.__init__`). -/
structure BaseState where
  epsilon : Rat
  slide_range : Bool
  thresh : Rat
  range_transform : Option Transform
deriving DecidableEq, Repr

/-- The base constructor's kwargs allow-list (line 41). -/
def baseAllowed : List String := ["epsilon", "slide_range", "thresh"]

/-- Extract the `bool` payload of a processed option (well-typed by
construction). -/
def asBool : PyVal → Bool
  | .vBool b => b
  | _ => false

/-- Extract the numeric payload of a processed option as a rational. -/
def asQ : PyVal → Rat
  | .vFloat q => q
  | .vInt z => (z : Rat)
  | .vBool b => if b then 1 else 0
  | _ => 0

/-- Extract the `int` payload of a processed option. -/
def asInt : PyVal → Int
  | .vInt z => z
  | .vBool b => if b then 1 else 0
  | _ => 0

/-- `Synthesizer.__init__` (lines 34-73): epsilon is required and must be
numeric (stored as `float(epsilon)`, with no positivity check and
`range_transform = None`); every kwarg name must be in the base allow-list;
then `slide_range` (default `False`, type `bool`) and `thresh` (default
`0.05`, type `float`) are processed. -/
def synthesizerInit (epsilon slide_range thresh : PyVal) (kwargs : List String) :
    Except Err BaseState :=
  if epsilon == .vNone then .error .configuration
  else if !isNumeric epsilon then .error .configuration
  else if !(kwargs.all (fun k => baseAllowed.contains k)) then .error .configuration
  else
    match processParam .pyBool (.vBool false) slide_range with
    | .error e => .error e
    | .ok sr =>
      match processParam .pyFloat (.vFloat (1/20)) thresh with
      | .error e => .error e
      | .ok th => .ok ⟨pyFloatQ epsilon, asBool sr, asQ th, none⟩

/-- The concrete adapter variants of the source file. -/
inductive Variant where
  | MST
  | PATECTGAN
  | PrivBayes
  | PacSynth
  | AIMT
  | AIM
  | GEM
deriving DecidableEq, Repr

/-- Each variant's `allowed_additional_params` set (empty for the variants
that instead forward their kwargs to the base constructor). -/
def additionalAllowed : Variant → List String
  | .MST => ["preprocess_factor", "delta", "verbose"]
  | .PATECTGAN => ["preprocess_factor"]
  | .PrivBayes => ["privbayes_limit", "privbayes_bins", "temp_files_dir", "seed"]
  | .PacSynth => []
  | .AIMT => []
  | .AIM => ["rounds_factor"]
  | .GEM => ["k", "T", "recycle", "verbose"]

/-- `PacSynth` and `AIMTSynthesizer` call `super().__init__(..., **synth_kwargs)`,
so their unexpected kwargs are rejected by the base allow-list check; every
other variant calls `super().__init__(epsilon, slide_range, thresh)` and
checks its kwargs locally. -/
def forwardsKwargs : Variant → Bool
  | .PacSynth => true
  | .AIMT => true
  | _ => false

/-- The named parameters of each variant's constructor: the caller-supplied
option names that do not land in `**synth_kwargs`. -/
def declaredParams (v : Variant) : List String :=
  "epsilon" :: "slide_range" :: "thresh" :: additionalAllowed v

/-- Each variant's `param_defaults` table, in source order: option name,
declared default, declared type. -/
def optionTable : Variant → List (String × PyVal × PyType)
  | .MST =>
    [("preprocess_factor", .vFloat (1/20), .pyFloat),
     ("delta", .vFloat (1/1000000000), .pyFloat),
     ("verbose", .vBool false, .pyBool)]
  | .PATECTGAN => [("preprocess_factor", .vFloat (1/20), .pyFloat)]
  | .PrivBayes =>
    [("privbayes_limit", .vInt 20, .pyInt),
     ("privbayes_bins", .vInt 10, .pyInt),
     ("temp_files_dir", .vStr "temp", .pyStr),
     ("seed", .vInt 0, .pyInt)]
  | .PacSynth => []
  | .AIMT => []
  | .AIM => [("rounds_factor", .vFloat (1/10), .pyFloat)]
  | .GEM =>
    [("k", .vInt 3, .pyInt),
     ("T", .vInt 100, .pyInt),
     ("recycle", .vBool true, .pyBool),
     ("verbose", .vBool false, .pyBool)]

/-- Process a variants's option table against the supplied keyword values, in
source order, stopping at the first failure. -/
def processTable (get : String → PyVal) :
    List (String × PyVal × PyType) → Except Err (List (String × PyVal))
  | [] => .ok []
  | (n, d, ty) :: rest =>
    match processParam ty d (get n) with
    | .error e => .error e
    | .ok pv =>
      match processTable get rest with
      | .error e => .error e
      | .ok l => .ok ((n, pv) :: l)

/-- An adapter instance's validated configuration: the base state plus the
variant's processed options. -/
structure AdapterState where
  base : BaseState
  opts : List (String × PyVal)
deriving DecidableEq, Repr

/-- Keyword binding: the value supplied for a declared parameter name, `None`
when absent. -/
def getOpt (opts : List (String × PyVal)) (n : String) : PyVal :=
  ((opts.find? (fun e => e.1 == n)).map Prod.snd).getD .vNone

/-- The kwargs the base constructor receives: the leftover kwargs for the
forwarding variants (`PacSynth`, `AIMTSynthesizer`), none otherwise. -/
def baseKwargs (v : Variant) (ks : List String) : List String :=
  if forwardsKwargs v then ks else []

/-- The variant-specific tail of a constructor call: the variant's own
allow-list check (skipped by the forwarding variants) followed by its
`param_defaults` processing. -/
def constructTail (v : Variant) (get : String → PyVal) (kwargNames : List String)
    (base : BaseState) : Except Err AdapterState :=
  if !forwardsKwargs v && !(kwargNames.all (fun k => (additionalAllowed v).contains k)) then
    .error .configuration
  else
    match processTable get (optionTable v) with
    | .error e => .error e
    | .ok vopts => .ok ⟨base, vopts⟩

/-- A concrete variant constructor call.  `epsilon` is the positional budget
argument; `opts` are the keyword arguments (Python binds those matching a
declared parameter name to that parameter, the rest become `**synth_kwargs`).
The sequencing follows the source: base `__init__` first (receiving the
leftover kwargs only for the forwarding variants), then the variant's
allow-list check, then the variant's `param_defaults` processing. -/
def construct (v : Variant) (epsilon : PyVal) (opts : List (String × PyVal)) :
    Except Err AdapterState :=
  match synthesizerInit epsilon (getOpt opts "slide_range") (getOpt opts "thresh")
      (baseKwargs v ((opts.map Prod.fst).filter (fun n => !(declaredParams v).contains n))) with
  | .error e => .error e
  | .ok base =>
    constructTail v (getOpt opts)
      ((opts.map Prod.fst).filter (fun n => !(declaredParams v).contains n)) base

/-- A processed variant option's numeric value, read back from the state. -/
def AdapterState.optQ (st : AdapterState) (n : String) : Rat :=
  asQ (getOpt st.opts n)

/-- A processed variant option's integer value, read back from the state. -/
def AdapterState.optInt (st : AdapterState) (n : String) : Int :=
  asInt (getOpt st.opts n)

/-- Decidable equality of `Except` results, for evaluating the embedded
operations on concrete inputs. -/
instance {ε α : Type} [DecidableEq ε] [DecidableEq α] : DecidableEq (Except ε α) := by
  intro a b
  cases a <;> cases b
  case error.error e f => exact decidable_of_iff (e = f) (by simp)
  case error.ok e x => exact isFalse (by simp)
  case ok.error x e => exact isFalse (by simp)
  case ok.ok x y => exact decidable_of_iff (x = y) (by simp)

/-! ## Fit and sample paths -/

/-- `Synthesizer._slide_range` (lines 92-95): apply the forward range
transform when `slide_range` is enabled, storing the mapping; `.error` when a
column is empty (Python's `min` raises a `ValueError` there). -/
def applySlide (sr : Bool) (df : Df) : Except Err (Df × Option Transform) :=
  if sr then
    match slide_range_forward df with
    | some (d, t) => .ok (d, some t)
    | none => .error .validation
  else .ok (df, none)

/-- `Synthesizer._unslide_range` (lines 97-102): with `slide_range` enabled
and no recorded transform, raise (`"Must fit synthesizer before sampling."`,
the spec's `StateError`); otherwise reverse the transform when enabled. -/
def unslide_range (sr : Bool) (rt : Option Transform) (df : Df) : Except Err Df :=
  match sr, rt with
  | true, none => .error .state
  | true, some t => .ok (slide_range_backward df t)
  | false, _ => .ok df

/-- The shared `sample` shape of the non-GEM variants (e.g.
`MSTSynthesizer.sample`, lines 212-215): draw from the wrapped mechanism
(an external collaborator, here a parameter), then reverse the range
transform.  `rt` is the adapter's `range_transform` field, `None` on a
freshly constructed instance. -/
def adapterSample (st : AdapterState) (rt : Option Transform)
    (mech : Nat → Except Err Df) (n : Nat) : Except Err Df :=
  match mech n with
  | .error e => .error e
  | .ok df => unslide_range st.base.slide_range rt df

/-- `GEMSynthesizer.sample` (lines 694-698): the generator produced by `fit`
(absent on a fresh instance) is asserted present before drawing; then the
range transform is reversed. -/
def GEMsample (G : Option (Nat → Df)) (sr : Bool) (rt : Option Transform)
    (n : Nat) : Except Err Df :=
  match G with
  | none => .error .state
  | some g => unslide_range sr rt (g n)

/-- What `MSTSynthesizer.fit` hands the wrapped mechanism: the preprocessing
budget passed as `preprocessor_eps`, the dataframe handed over, and the new
range-transform state. -/
structure MSTFitResult where
  preprocEps : Rat
  slid : Df
  rt : Option Transform
deriving DecidableEq, Repr

/-- `MSTSynthesizer.fit` (lines 196-210): reject unless every column is
classified categorical, then slide the range and hand the wrapped mechanism
the dataframe together with `preprocessor_eps = preprocess_factor * epsilon`. -/
def MSTfit (st : AdapterState) (df : Df) : Except Err MSTFitResult :=
  if !categoricalCheck st.base.thresh df then .error .validation
  else
    match applySlide st.base.slide_range df with
    | .error e => .error e
    | .ok (slid, rt) => .ok ⟨st.optQ "preprocess_factor" * st.base.epsilon, slid, rt⟩

/-- The `PrivBayes.fit` binning step (lines 372-377): every column whose
distinct-value count strictly exceeds `privbayes_limit` is replaced by
`binFn column privbayes_bins`, where `binFn` stands for the external pandas
step `qcut(col, q=bins, duplicates="drop")` followed by taking integer
interval midpoints; other columns are untouched. -/
def privBayesBin (binFn : Col → Int → Col) (limit bins : Int) (df : Df) : Df :=
  df.map (fun p => if (nunique p.2 : Int) > limit then (p.1, binFn p.2 bins) else p)

/-- `PrivBayes.fit` (lines 366-399) up to the describer hand-off: slide the
range, bin high-cardinality columns, reject unless every (post-binning)
column is classified categorical, then hand the describer the binned
dataframe together with the full epsilon budget.  The `.ok` payload is
exactly what the describer invocation receives: the binned dataframe (written
to `temp.csv`) and the epsilon passed to
`describe_dataset_in_correlated_attribute_mode`. -/
def privBayesFit (binFn : Col → Int → Col) (st : AdapterState) (df : Df) :
    Except Err (Df × Rat) :=
  match applySlide st.base.slide_range df with
  | .error e => .error e
  | .ok (slid, _) =>
    let binned := privBayesBin binFn (st.optInt "privbayes_limit") (st.optInt "privbayes_bins") slid
    if !categoricalCheck st.base.thresh binned then .error .validation
    else .ok (binned, st.base.epsilon)

/-- Observable behaviour of the external `TableTransformer` consumed by
`GEMSynthesizer._get_train_data`: whether it is already fit, whether it needs
epsilon to infer bounds, and the epsilon its odometer reports spent after
fitting. -/
structure TransformerBehavior where
  fit_complete : Bool
  needs_epsilon : Bool
  eps_spent : Rat
deriving DecidableEq, Repr

/-- The budget accounting of `GEMSynthesizer._get_train_data` (lines 612-626):
if the transformer is not yet fit, it may demand a nonzero `preprocessor_eps`;
after fitting, any positively reported spend is subtracted from
`self.epsilon`, and if the remainder drops below `10E-3` the fit aborts
(`"Epsilon remaining is too small!"`, the spec's `BudgetExhaustedError`).
Returns the adapter's epsilon after the call. -/
def get_train_data (tb : TransformerBehavior) (preprocessor_eps : Option Rat)
    (epsilon : Rat) : Except Err Rat :=
  if tb.fit_complete then .ok epsilon
  else if tb.needs_epsilon && (preprocessor_eps == none || preprocessor_eps == some 0) then
    .error .validation
  else if tb.eps_spent > 0 then
    if epsilon - tb.eps_spent < 1/100 then .error .budget
    else .ok (epsilon - tb.eps_spent)
  else .ok epsilon

/-- Result of `GEMSynthesizer.fit` as far as the optimizer hand-off: the
epsilon given to the `GEM` algorithm (the adapter's budget after the
transformer's spend was deducted) and the slid dataframe handed to the
transformer. -/
structure GEMFitResult where
  trainEpsilon : Rat
  slid : Df
deriving DecidableEq, Repr

/-- `GEMSynthesizer.fit` (lines 628-692): reject unless every column is
classified categorical, slide the range, run `_get_train_data` (deducting
transformer spend from the budget), then validate the transformer's
cardinalities (`cards`, all non-null and matching `output_width`, both
external collaborator outputs) before constructing the `GEM` optimizer with
the remaining `self.epsilon`. -/
def GEMfit (st : AdapterState) (tb : TransformerBehavior)
    (preprocessor_eps : Option Rat) (cards : List (Option Nat)) (output_width : Nat)
    (df : Df) : Except Err GEMFitResult :=
  if !categoricalCheck st.base.thresh df then .error .validation
  else
    match applySlide st.base.slide_range df with
    | .error e => .error e
    | .ok (slid, _) =>
      match get_train_data tb preprocessor_eps st.base.epsilon with
      | .error e => .error e
      | .ok eps =>
        if cards.any (fun c => c == none) then .error .validation
        else if !(cards.length == output_width) then .error .validation
        else .ok ⟨eps, slid⟩

/-! ## Helper lemmas about the constructors -/

/-- Every failure of the shared option-processing step is a
`ConfigurationError`. -/
theorem processParam_error {ty : PyType} {d v : PyVal} {e : Err}
    (h : processParam ty d v = .error e) : e = .configuration := by
  unfold processParam at h
  cases v
  case vNone => cases h
  all_goals
    dsimp only at h
    split at h <;> split at h <;> simp_all

/-- Every failure of the base constructor is a `ConfigurationError`. -/
theorem synthesizerInit_error {eps sr th : PyVal} {ks : List String} {e : Err}
    (h : synthesizerInit eps sr th ks = .error e) : e = .configuration := by
  unfold synthesizerInit at h
  split at h
  · exact (Except.error.injEq _ _).mp h.symm |>.symm ▸ rfl
  · split at h
    · exact (Except.error.injEq _ _).mp h.symm |>.symm ▸ rfl
    · split at h
      · exact (Except.error.injEq _ _).mp h.symm |>.symm ▸ rfl
      · split at h
        next heq =>
          cases h
          exact processParam_error heq
        next heq =>
          split at h
          next heq2 =>
            cases h
            exact processParam_error heq2
          next => cases h

/-- The base constructor rejects any kwarg name outside its allow-list. -/
theorem synthesizerInit_kwarg_reject {eps sr th : PyVal} {ks : List String} {k : String}
    (hk : k ∈ ks) (hout : k ∉ baseAllowed) :
    synthesizerInit eps sr th ks = .error .configuration := by
  have hall : (ks.all (fun m => baseAllowed.contains m)) = false := by
    refine Bool.eq_false_iff.mpr fun hall => ?_
    exact hout (List.mem_of_elem_eq_true (List.all_eq_true.mp hall k hk))
  unfold synthesizerInit
  split
  · rfl
  · split
    · rfl
    · rw [hall]
      rfl

/-- Every failure of a variant constructor is a `ConfigurationError`. -/
theorem construct_error {v : Variant} {eps : PyVal} {opts : List (String × PyVal)} {e : Err}
    (h : construct v eps opts = .error e) : e = .configuration := by
  have htab : ∀ (get : String → PyVal) (tab : List (String × PyVal × PyType)),
      processTable get tab = .error e → e = .configuration := by
    intro get tab
    induction tab with
    | nil => intro hq; cases hq
    | cons hd tl ih =>
      obtain ⟨n, d, ty⟩ := hd
      unfold processTable
      intro hq
      revert hq
      split
      next hp => intro hq; cases hq; exact processParam_error hp
      next hp =>
        split
        next h2 => intro hq; cases hq; exact ih h2
        next => intro hq; cases hq
  have htail : ∀ (get : String → PyVal) (ks : List String) (base : BaseState),
      constructTail v get ks base = .error e → e = .configuration := by
    intro get ks base
    unfold constructTail
    split
    · intro hq; cases hq; rfl
    · split
      next h2 => intro hq; cases hq; exact htab _ _ h2
      next => intro hq; cases hq
  unfold construct at h
  revert h
  split
  next heq =>
    intro h
    cases h
    exact synthesizerInit_error heq
  next heq =>
    intro h
    exact htail _ _ _ h

/-! ## C10 -/

/-- C10: the base adapter constructor (`Synthesizer.__init__`, lines 43-50)
raises if and only if epsilon is absent (`None`) or of non-numeric type; for
every `int` or `float` epsilon value, including zero and negative values,
construction succeeds and stores `float(epsilon)` as the budget, with no
positivity check (and `range_transform = None`, default `slide_range = False`,
default `thresh = 0.05`). -/
theorem base_constructor_epsilon_spec (eps : PyVal) :
    ((∃ e, synthesizerInit eps .vNone .vNone [] = .error e) ↔ isNumeric eps = false) ∧
    (∀ z : Int, eps = .vInt z →
      synthesizerInit eps .vNone .vNone [] = .ok ⟨(z : Rat), false, 1/20, none⟩) ∧
    (∀ q : Rat, eps = .vFloat q →
      synthesizerInit eps .vNone .vNone [] = .ok ⟨q, false, 1/20, none⟩) := by
  cases eps <;>
    simp [synthesizerInit, isNumeric, isinstance, processParam, pyFloatQ, asBool, asQ]

/-- Witness for C10: the base constructor accepts the negative integer
epsilon `-3` (no positivity check) and stores it as the float `-3.0`. -/
theorem base_constructor_epsilon_spec_witness :
    synthesizerInit (.vInt (-3)) .vNone .vNone [] = .ok ⟨((-3 : Int) : Rat), false, 1/20, none⟩ :=
  (base_constructor_epsilon_spec (.vInt (-3))).2.1 (-3) rfl

/-! ## C5 -/

/-- C5: constructing any adapter variant with a keyword option whose name is
outside that variant's allow-list (the base allow-list
`{epsilon, slide_range, thresh}` plus the variant's
`allowed_additional_params`) raises `ConfigurationError`, whatever the other
arguments are. -/
theorem unknown_option_rejected (v : Variant) (eps : PyVal)
    (opts : List (String × PyVal)) (n : String)
    (hmem : n ∈ opts.map Prod.fst) (hout : n ∉ declaredParams v) :
    construct v eps opts = .error .configuration := by
  have hkw : n ∈ (opts.map Prod.fst).filter (fun m => !(declaredParams v).contains m) := by
    refine List.mem_filter.mpr ⟨hmem, ?_⟩
    refine Bool.not_eq_true' .. ▸ Bool.eq_false_iff.mpr fun hc => ?_
    exact hout (List.mem_of_elem_eq_true hc)
  have hnb : n ∉ baseAllowed := fun hb => by
    refine hout ?_
    simp only [baseAllowed, List.mem_cons, List.not_mem_nil, or_false] at hb
    simp only [declaredParams, List.mem_cons]
    tauto
  have hna : n ∉ additionalAllowed v := fun ha => by
    refine hout ?_
    simp only [declaredParams, List.mem_cons]
    tauto
  have hall : (((opts.map Prod.fst).filter
      (fun m => !(declaredParams v).contains m)).all
        (fun k => (additionalAllowed v).contains k)) = false := by
    refine Bool.eq_false_iff.mpr fun hall => ?_
    exact hna (List.mem_of_elem_eq_true (List.all_eq_true.mp hall n hkw))
  unfold construct
  by_cases hf : forwardsKwargs v = true
  · rw [show baseKwargs v ((opts.map Prod.fst).filter
        (fun m => !(declaredParams v).contains m)) =
        (opts.map Prod.fst).filter (fun m => !(declaredParams v).contains m) by
      simp [baseKwargs, hf]]
    rw [synthesizerInit_kwarg_reject hkw hnb]
  · split
    next heq => rw [synthesizerInit_error heq]
    next heq =>
      unfold constructTail
      rw [Bool.not_eq_true] at hf
      rw [hf, hall]
      rfl

/-- Witness for C5: constructing the MST variant with the unknown option name
`foo` fails with `ConfigurationError`. -/
theorem unknown_option_rejected_witness :
    construct .MST (.vFloat 1) [("foo", .vInt 1)] = .error .configuration :=
  unknown_option_rejected .MST (.vFloat 1) [("foo", .vInt 1)] "foo"
    (by decide) (by decide)

/-! ## C9 -/

/-- The base constructor's own `param_defaults` table (line 60). -/
def baseOptionTable : List (String × PyVal × PyType) :=
  [("slide_range", .vBool false, .pyBool), ("thresh", .vFloat (1/20), .pyFloat)]

/-- C9 counterexample: the claim says a supplied value of numeric type is
coerced to the option's declared numeric type, but supplying the float `20.5`
for the int-typed option `privbayes_limit` is not coerced to `int`:
construction fails with `ConfigurationError` instead. -/
theorem numeric_coercion_counterexample :
    construct .PrivBayes (.vFloat 1) [("privbayes_limit", .vFloat (41/2))] =
      .error .configuration := by
  decide

/-- C9 (amended): for every declared option of every adapter variant, an
absent value is replaced by the option's declared default; an `int` supplied
for a float-typed option is converted to `float`; but the only numeric
coercion is int-to-float — a `float` supplied for an int-typed option is not
coerced and fails construction with `ConfigurationError`, as does any other
supplied value failing `isinstance` against the declared type (after the
int-to-float coercion); any supplied value passing `isinstance` against the
declared type (and not subject to the int-to-float coercion) is stored
unchanged. -/
theorem option_processing_spec (v : Variant) (n : String) (d : PyVal) (ty : PyType)
    (hmem : (n, d, ty) ∈ baseOptionTable ++ optionTable v) :
    (processParam ty d .vNone = .ok d) ∧
    (∀ z : Int, ty = .pyFloat → processParam ty d (.vInt z) = .ok (.vFloat (z : Rat))) ∧
    (∀ q : Rat, ty = .pyInt → processParam ty d (.vFloat q) = .error .configuration) ∧
    (∀ w : PyVal, w ≠ .vNone → isinstance w ty = true →
      ¬(isinstance w .pyInt = true ∧ ty = .pyFloat) → processParam ty d w = .ok w) ∧
    (∀ w : PyVal, w ≠ .vNone →
      isinstance (if isinstance w .pyInt && (ty == .pyFloat) then toFloatVal w else w) ty
        = false →
      processParam ty d w = .error .configuration) := by
  refine ⟨rfl, ?_, ?_, ?_, ?_⟩
  · intro z hty
    subst hty
    rfl
  · intro q hty
    subst hty
    rfl
  · intro w hne hinst hnc
    cases w <;> cases ty <;> simp_all [processParam, isinstance]
  · intro w hne hbad
    cases w
    · exact absurd rfl hne
    all_goals
      unfold processParam
      dsimp only
      rw [hbad]
      rfl

/-- Witness for C9 (amended): the MST variant's float-typed option
`preprocess_factor` defaults when absent, coerces a supplied int, stores a
supplied float unchanged, and rejects a supplied string with
`ConfigurationError`. -/
theorem option_processing_spec_witness :
    processParam .pyFloat (.vFloat (1/20)) .vNone = .ok (.vFloat (1/20)) ∧
    processParam .pyFloat (.vFloat (1/20)) (.vInt 2) = .ok (.vFloat ((2 : Int) : Rat)) ∧
    processParam .pyFloat (.vFloat (1/20)) (.vFloat (3/10)) = .ok (.vFloat (3/10)) ∧
    processParam .pyFloat (.vFloat (1/20)) (.vStr "x") = .error .configuration := by
  have h := option_processing_spec .MST "preprocess_factor" (.vFloat (1/20)) .pyFloat
    (by decide)
  exact ⟨h.1, h.2.1 2 rfl, h.2.2.2.1 (.vFloat (3/10)) (by decide) (by decide) (by decide),
    h.2.2.2.2 (.vStr "x") (by decide) (by decide)⟩

/-! ## Classifier lemmas -/

/-- The two classifier lists partition the columns by count. -/
theorem categorical_continuous_length (t : Rat) (df : Df) :
    (categorical_continuous t df).1.length + (categorical_continuous t df).2.length
      = df.length := by
  induction df with
  | nil => rfl
  | cons p rest ih =>
    unfold categorical_continuous
    dsimp only
    split <;> simp [← ih] <;> omega

/-- Names in the categorical list come from a column whose ratio is below the
threshold. -/
theorem mem_categorical_exists {t : Rat} {df : Df} {c : String}
    (h : c ∈ (categorical_continuous t df).1) :
    ∃ p, p ∈ df ∧ p.1 = c ∧ colRatio p.2 < t := by
  induction df with
  | nil => cases h
  | cons q rest ih =>
    unfold categorical_continuous at h
    dsimp only at h
    split at h
    next hlt =>
      rcases List.mem_cons.mp h with hc | hc
      · exact ⟨q, List.mem_cons_self .., hc.symm, hlt⟩
      · obtain ⟨p, hp, hc, hr⟩ := ih hc
        exact ⟨p, List.mem_cons_of_mem _ hp, hc, hr⟩
    next =>
      obtain ⟨p, hp, hc, hr⟩ := ih h
      exact ⟨p, List.mem_cons_of_mem _ hp, hc, hr⟩

/-- Names in the continuous list come from a column whose ratio is at or
above the threshold. -/
theorem mem_continuous_exists {t : Rat} {df : Df} {c : String}
    (h : c ∈ (categorical_continuous t df).2) :
    ∃ p, p ∈ df ∧ p.1 = c ∧ ¬ colRatio p.2 < t := by
  induction df with
  | nil => cases h
  | cons q rest ih =>
    unfold categorical_continuous at h
    dsimp only at h
    split at h
    next =>
      obtain ⟨p, hp, hc, hr⟩ := ih h
      exact ⟨p, List.mem_cons_of_mem _ hp, hc, hr⟩
    next hge =>
      rcases List.mem_cons.mp h with hc | hc
      · exact ⟨q, List.mem_cons_self .., hc.symm, hge⟩
      · obtain ⟨p, hp, hc, hr⟩ := ih hc
        exact ⟨p, List.mem_cons_of_mem _ hp, hc, hr⟩

/-- A column with ratio below the threshold lands in the categorical list. -/
theorem mem_categorical_of_ratio {t : Rat} {df : Df} {p : String × Col}
    (hp : p ∈ df) (hr : colRatio p.2 < t) :
    p.1 ∈ (categorical_continuous t df).1 := by
  induction df with
  | nil => cases hp
  | cons q rest ih =>
    unfold categorical_continuous
    dsimp only
    rcases List.mem_cons.mp hp with hq | hq
    · subst hq
      rw [if_pos hr]
      exact List.mem_cons_self ..
    · split
      · exact List.mem_cons_of_mem _ (ih hq)
      · exact ih hq

/-- A column with ratio at or above the threshold lands in the continuous
list. -/
theorem mem_continuous_of_ratio {t : Rat} {df : Df} {p : String × Col}
    (hp : p ∈ df) (hr : ¬ colRatio p.2 < t) :
    p.1 ∈ (categorical_continuous t df).2 := by
  induction df with
  | nil => cases hp
  | cons q rest ih =>
    unfold categorical_continuous
    dsimp only
    rcases List.mem_cons.mp hp with hq | hq
    · subst hq
      rw [if_neg hr]
      exact List.mem_cons_self ..
    · split
      · exact ih hq
      · exact List.mem_cons_of_mem _ (ih hq)

/-- With distinct column names, two columns sharing a name are the same
column. -/
theorem name_unique {df : Df} (hnd : (df.map Prod.fst).Nodup)
    {p q : String × Col} (hp : p ∈ df) (hq : q ∈ df) (h : p.1 = q.1) : p = q :=
  List.inj_on_of_nodup_map hnd hp hq h

/-- The all-categorical check fails exactly when the continuous list is
nonempty. -/
theorem categoricalCheck_false_iff (t : Rat) (df : Df) :
    categoricalCheck t df = false ↔ (categorical_continuous t df).2 ≠ [] := by
  have hlen := categorical_continuous_length t df
  unfold categoricalCheck
  rw [Bool.eq_false_iff]
  constructor
  · intro hne hnil
    rw [hnil] at hlen
    simp at hlen
    exact hne (by simp [hlen])
  · intro hnil hbeq
    have : (categorical_continuous t df).1.length = df.length := by
      simpa using hbeq
    have : (categorical_continuous t df).2.length = 0 := by omega
    exact hnil (List.length_eq_zero.mp this)

/-! ## C6 -/

/-- C6: for every dataset and threshold, the column classifier
(`_categorical_continuous`) computes for each column the ratio of distinct
count to non-null count, classifies a column as categorical/ordinal exactly
when that ratio is strictly below the threshold and as continuous otherwise,
and returns two disjoint column-name lists whose union is the full set of
columns.  (Columns are required nonempty — Python's division raises on an
empty column — and column names distinct, as pandas dataframes with
duplicated labels do not behave column-wise.) -/
theorem classifier_spec (t : Rat) (df : Df)
    (hne : ∀ p ∈ df, p.2 ≠ ([] : Col))
    (hnd : (df.map Prod.fst).Nodup) :
    (∀ p ∈ df, (p.1 ∈ (categorical_continuous t df).1 ↔
        (nunique p.2 : Rat) / (colCount p.2 : Rat) < t)) ∧
    (∀ p ∈ df, (p.1 ∈ (categorical_continuous t df).2 ↔
        ¬ (nunique p.2 : Rat) / (colCount p.2 : Rat) < t)) ∧
    (∀ c : String, ¬(c ∈ (categorical_continuous t df).1 ∧
        c ∈ (categorical_continuous t df).2)) ∧
    (∀ c : String, (c ∈ (categorical_continuous t df).1 ∨
        c ∈ (categorical_continuous t df).2) ↔ c ∈ df.map Prod.fst) := by
  refine ⟨?_, ?_, ?_, ?_⟩
  · intro p hp
    constructor
    · intro h
      obtain ⟨q, hq, hname, hr⟩ := mem_categorical_exists h
      rwa [name_unique hnd hq hp hname] at hr
    · exact mem_categorical_of_ratio hp
  · intro p hp
    constructor
    · intro h
      obtain ⟨q, hq, hname, hr⟩ := mem_continuous_exists h
      rwa [name_unique hnd hq hp hname] at hr
    · exact mem_continuous_of_ratio hp
  · rintro c ⟨hcat, hcont⟩
    obtain ⟨p, hp, hpc, hpr⟩ := mem_categorical_exists hcat
    obtain ⟨q, hq, hqc, hqr⟩ := mem_continuous_exists hcont
    exact hqr (name_unique hnd hq hp (hqc.trans hpc.symm) ▸ hpr)
  · intro c
    constructor
    · rintro (h | h)
      · obtain ⟨p, hp, hpc, _⟩ := mem_categorical_exists h
        exact hpc ▸ List.mem_map_of_mem Prod.fst hp
      · obtain ⟨p, hp, hpc, _⟩ := mem_continuous_exists h
        exact hpc ▸ List.mem_map_of_mem Prod.fst hp
    · intro h
      obtain ⟨p, hp, hpc⟩ := List.mem_map.mp h
      by_cases hr : colRatio p.2 < t
      · exact Or.inl (hpc ▸ mem_categorical_of_ratio hp hr)
      · exact Or.inr (hpc ▸ mem_continuous_of_ratio hp hr)

/-- Witness for C6: on a two-column dataset with threshold one-half, the
column with three equal values is categorical (ratio one-third), the
all-distinct column is continuous (ratio one). -/
theorem classifier_spec_witness :
    (∀ p ∈ [(("a" : String), ([0, 0, 0] : Col)), ("b", [0, 1, 2])],
      (p.1 ∈ (categorical_continuous (1/2) [(("a" : String), ([0, 0, 0] : Col)), ("b", [0, 1, 2])]).1 ↔
        (nunique p.2 : Rat) / (colCount p.2 : Rat) < 1/2)) ∧
    (∀ p ∈ [(("a" : String), ([0, 0, 0] : Col)), ("b", [0, 1, 2])],
      (p.1 ∈ (categorical_continuous (1/2) [(("a" : String), ([0, 0, 0] : Col)), ("b", [0, 1, 2])]).2 ↔
        ¬ (nunique p.2 : Rat) / (colCount p.2 : Rat) < 1/2)) ∧
    (∀ c : String, ¬(c ∈ (categorical_continuous (1/2) [(("a" : String), ([0, 0, 0] : Col)), ("b", [0, 1, 2])]).1 ∧
        c ∈ (categorical_continuous (1/2) [(("a" : String), ([0, 0, 0] : Col)), ("b", [0, 1, 2])]).2)) ∧
    (∀ c : String, (c ∈ (categorical_continuous (1/2) [(("a" : String), ([0, 0, 0] : Col)), ("b", [0, 1, 2])]).1 ∨
        c ∈ (categorical_continuous (1/2) [(("a" : String), ([0, 0, 0] : Col)), ("b", [0, 1, 2])]).2) ↔
      c ∈ ([(("a" : String), ([0, 0, 0] : Col)), ("b", [0, 1, 2])]).map Prod.fst) :=
  classifier_spec (1/2) [("a", [0, 0, 0]), ("b", [0, 1, 2])] (by decide) (by decide)

/-! ## C3 -/

/-- Models the pandas step
`pd.qcut(df[col], q, duplicates="drop")` followed by integer interval
midpoints, at the concrete uniform 30-row column `0..29` used in the C3
counterexample: ten equal-frequency bins of width three, each value replaced
by its bin's integral midpoint representative. -/
def qcutMidEx : Col → Int → Col := fun vs _ => vs.map (fun v => (v / 3) * 3 + 1)

/-- The PrivBayes adapter state produced by
`PrivBayes(epsilon=1.0, thresh=0.5)`: all variant options at their defaults. -/
def pbStateEx : AdapterState :=
  ⟨⟨1, false, 1/2, none⟩,
   [("privbayes_limit", .vInt 20), ("privbayes_bins", .vInt 10),
    ("temp_files_dir", .vStr "temp"), ("seed", .vInt 0)]⟩

/-- A one-column dataframe whose column holds the thirty distinct values
`0..29` (distinct ratio `1`). -/
def dfEx : Df := [("a", (List.range 30).map Int.ofNat)]

/-- Whether an embedded PrivBayes fit reached the describer hand-off. -/
def pbFitOk (r : Except Err (Df × Rat)) : Bool :=
  match r with
  | .ok _ => true
  | .error _ => false

/-- C3 counterexample: the claim says every dataset with a column of distinct
ratio at or above the threshold makes `fit` raise `ValidationError` on the
PrivBayes variant too — but PrivBayes bins high-cardinality columns before
the categorical check.  With `thresh = 0.5`, the single column of `dfEx` has
pre-binning ratio `1 ≥ 0.5`, yet its thirty distinct values exceed
`privbayes_limit = 20`, so it is quantile-binned down to ten distinct values
(post-binning ratio one-third), the check passes and `fit` proceeds without
any `ValidationError`. -/
theorem categorical_enforcement_counterexample :
    construct .PrivBayes (.vFloat 1) [("thresh", .vFloat (1/2))] = .ok pbStateEx ∧
    (¬ colRatio ((List.range 30).map Int.ofNat) < pbStateEx.base.thresh) ∧
    pbFitOk (privBayesFit qcutMidEx pbStateEx dfEx) = true := by
  refine ⟨by decide, by decide, by decide⟩

/-- C3 (amended): fitting the marginal-based (MST) or iterative-mechanism
(GEM) variant on a dataset containing a column with distinct ratio at or
above the threshold raises `ValidationError`; for the Bayesian-network
variant (PrivBayes) the same check is applied only after the binning step, so
`fit` raises `ValidationError` exactly when some post-binning column still
has distinct ratio at or above the threshold. -/
theorem fit_categorical_enforcement :
    (∀ (st : AdapterState) (df : Df) (p : String × Col), p ∈ df →
      ¬ colRatio p.2 < st.base.thresh → MSTfit st df = .error .validation) ∧
    (∀ (st : AdapterState) (tb : TransformerBehavior) (pe : Option Rat)
      (cards : List (Option Nat)) (ow : Nat) (df : Df) (p : String × Col), p ∈ df →
      ¬ colRatio p.2 < st.base.thresh →
      GEMfit st tb pe cards ow df = .error .validation) ∧
    (∀ (binFn : Col → Int → Col) (st : AdapterState) (df slid : Df) (rt : Option Transform),
      applySlide st.base.slide_range df = .ok (slid, rt) →
      (privBayesFit binFn st df = .error .validation ↔
        ∃ p, p ∈ privBayesBin binFn (st.optInt "privbayes_limit")
            (st.optInt "privbayes_bins") slid ∧
          ¬ colRatio p.2 < st.base.thresh)) := by
  have hchk : ∀ (t : Rat) (df : Df) (p : String × Col), p ∈ df → ¬ colRatio p.2 < t →
      categoricalCheck t df = false := by
    intro t df p hp hr
    exact (categoricalCheck_false_iff t df).mpr
      (List.ne_nil_of_mem (mem_continuous_of_ratio hp hr))
  refine ⟨?_, ?_, ?_⟩
  · intro st df p hp hr
    unfold MSTfit
    rw [hchk st.base.thresh df p hp hr]
    rfl
  · intro st tb pe cards ow df p hp hr
    unfold GEMfit
    rw [hchk st.base.thresh df p hp hr]
    rfl
  · intro binFn st df slid rt happ
    unfold privBayesFit
    rw [happ]
    dsimp only
    constructor
    · intro h
      revert h
      split
      next hfail =>
        intro _
        rw [Bool.not_eq_true'] at hfail
        obtain ⟨c, hc⟩ := List.exists_mem_of_ne_nil _
          ((categoricalCheck_false_iff _ _).mp hfail)
        obtain ⟨p, hp, _, hr⟩ := mem_continuous_exists hc
        exact ⟨p, hp, hr⟩
      next => intro h; cases h
    · rintro ⟨p, hp, hr⟩
      rw [hchk st.base.thresh _ p hp hr]
      rfl

/-- Witness for C3 (amended): a three-distinct-value column in a three-row
dataset (ratio `1`) is rejected by the MST and GEM fits at the default
threshold `0.05`, and the PrivBayes error condition is equivalent to the
post-binning ratio test. -/
theorem fit_categorical_enforcement_witness :
    MSTfit ⟨⟨1, false, 1/20, none⟩, []⟩ [("u", [0, 1, 2])] = .error .validation ∧
    GEMfit ⟨⟨1, false, 1/20, none⟩, []⟩ ⟨false, false, 0⟩ none [] 0 [("u", [0, 1, 2])]
      = .error .validation ∧
    (privBayesFit qcutMidEx pbStateEx dfEx = .error .validation ↔
      ∃ p, p ∈ privBayesBin qcutMidEx (pbStateEx.optInt "privbayes_limit")
          (pbStateEx.optInt "privbayes_bins") dfEx ∧
        ¬ colRatio p.2 < pbStateEx.base.thresh) :=
  ⟨fit_categorical_enforcement.1 ⟨⟨1, false, 1/20, none⟩, []⟩ [("u", [0, 1, 2])]
      ("u", [0, 1, 2]) (by decide) (by decide),
   fit_categorical_enforcement.2.1 ⟨⟨1, false, 1/20, none⟩, []⟩ ⟨false, false, 0⟩ none [] 0
      [("u", [0, 1, 2])] ("u", [0, 1, 2]) (by decide) (by decide),
   fit_categorical_enforcement.2.2 qcutMidEx pbStateEx dfEx dfEx none (by decide)⟩

/-! ## C7 -/

/-- A successful constructor call processed the variant's option table. -/
theorem construct_ok_opts {v : Variant} {eps : PyVal} {opts : List (String × PyVal)}
    {st : AdapterState} (hc : construct v eps opts = .ok st) :
    processTable (getOpt opts) (optionTable v) = .ok st.opts := by
  unfold construct at hc
  revert hc
  split
  · intro hc; cases hc
  · intro hc
    unfold constructTail at hc
    revert hc
    split
    · intro hc; cases hc
    · split
      · intro hc; cases hc
      · intro hc; cases hc; assumption

/-- An option absent from the call's keyword arguments binds to `None`. -/
theorem getOpt_not_mem {opts : List (String × PyVal)} {n : String}
    (h : n ∉ opts.map Prod.fst) : getOpt opts n = .vNone := by
  unfold getOpt
  rw [List.find?_eq_none.mpr ?_]
  · rfl
  · intro x hx hbeq
    exact h (beq_iff_eq.mp hbeq ▸ List.mem_map_of_mem Prod.fst hx)

/-- A table head whose option is absent is processed to its default, and the
tail is processed independently. -/
theorem processTable_head_default {get : String → PyVal} {n : String} {d : PyVal}
    {ty : PyType} {rest : List (String × PyVal × PyType)} {l : List (String × PyVal)}
    (h : processTable get ((n, d, ty) :: rest) = .ok l) (hg : get n = .vNone) :
    ∃ l2, l = (n, d) :: l2 ∧ processTable get rest = .ok l2 := by
  unfold processTable at h
  rw [hg, show processParam ty d .vNone = .ok d from rfl] at h
  revert h
  dsimp only
  split
  next heq => intro h; cases h
  next heq => intro h; cases h; exact ⟨_, rfl, heq⟩

/-- Reading back the head option of the processed table. -/
theorem getOpt_cons_self (n : String) (d : PyVal) (l : List (String × PyVal)) :
    getOpt ((n, d) :: l) n = d := by
  simp [getOpt, List.find?]

/-- C7: `MSTSynthesizer.fit` passes exactly `preprocess_factor * epsilon` as
`preprocessor_eps` to the wrapped mechanism, with `preprocess_factor`
defaulting to `0.05` when not supplied, so the remaining
`(1 - preprocess_factor) * epsilon` of the budget is what funds the marginal
fitting (the two shares sum to the declared epsilon). -/
theorem mst_preprocess_budget (eps : PyVal) (opts : List (String × PyVal))
    (st : AdapterState) (df : Df) (r : MSTFitResult)
    (hc : construct .MST eps opts = .ok st) :
    ("preprocess_factor" ∉ opts.map Prod.fst → st.optQ "preprocess_factor" = 1/20) ∧
    (MSTfit st df = .ok r →
      r.preprocEps = st.optQ "preprocess_factor" * st.base.epsilon ∧
      r.preprocEps + (1 - st.optQ "preprocess_factor") * st.base.epsilon
        = st.base.epsilon) := by
  constructor
  · intro hnp
    have htab := construct_ok_opts hc
    obtain ⟨l2, hopts, _⟩ := processTable_head_default htab (getOpt_not_mem hnp)
    unfold AdapterState.optQ
    rw [hopts, getOpt_cons_self]
    rfl
  · intro hfit
    unfold MSTfit at hfit
    revert hfit
    split
    · intro hfit; cases hfit
    · split
      · intro hfit; cases hfit
      · intro hfit
        cases hfit
        exact ⟨rfl, by ring⟩

/-- Witness for C7: the default-constructed MST adapter at `epsilon = 1` has
`preprocess_factor = 0.05` and its fit on an all-categorical column passes
`preprocessor_eps = 0.05`. -/
theorem mst_preprocess_budget_witness :
    ("preprocess_factor" ∉ ([] : List (String × PyVal)).map Prod.fst →
      (AdapterState.mk ⟨1, false, 1/20, none⟩
        [("preprocess_factor", .vFloat (1/20)), ("delta", .vFloat (1/1000000000)),
         ("verbose", .vBool false)]).optQ "preprocess_factor" = 1/20) ∧
    (MSTfit (AdapterState.mk ⟨1, false, 1/20, none⟩
        [("preprocess_factor", .vFloat (1/20)), ("delta", .vFloat (1/1000000000)),
         ("verbose", .vBool false)]) [("a", List.replicate 30 0)]
      = .ok ⟨1/20, [("a", List.replicate 30 0)], none⟩ →
      (1/20 : Rat) = (AdapterState.mk ⟨1, false, 1/20, none⟩
        [("preprocess_factor", .vFloat (1/20)), ("delta", .vFloat (1/1000000000)),
         ("verbose", .vBool false)]).optQ "preprocess_factor" *
        (AdapterState.mk ⟨1, false, 1/20, none⟩
        [("preprocess_factor", .vFloat (1/20)), ("delta", .vFloat (1/1000000000)),
         ("verbose", .vBool false)]).base.epsilon ∧
      (1/20 : Rat) + (1 - (AdapterState.mk ⟨1, false, 1/20, none⟩
        [("preprocess_factor", .vFloat (1/20)), ("delta", .vFloat (1/1000000000)),
         ("verbose", .vBool false)]).optQ "preprocess_factor") *
        (AdapterState.mk ⟨1, false, 1/20, none⟩
        [("preprocess_factor", .vFloat (1/20)), ("delta", .vFloat (1/1000000000)),
         ("verbose", .vBool false)]).base.epsilon
        = (AdapterState.mk ⟨1, false, 1/20, none⟩
        [("preprocess_factor", .vFloat (1/20)), ("delta", .vFloat (1/1000000000)),
         ("verbose", .vBool false)]).base.epsilon) :=
  mst_preprocess_budget (.vFloat 1) [] _ [("a", List.replicate 30 0)]
    ⟨1/20, [("a", List.replicate 30 0)], none⟩ (by decide)

/-! ## C2 -/

/-- Budget behaviour of `_get_train_data` when the transformer was not
pre-fit and reports a positive spend: the spend is subtracted, and a
remainder below the `10E-3` floor aborts. -/
theorem get_train_data_spec (tb : TransformerBehavior) (pe : Option Rat) (eps : Rat)
    (hfc : tb.fit_complete = false) (hsp : 0 < tb.eps_spent) :
    (∀ e2, get_train_data tb pe eps = .ok e2 → e2 = eps - tb.eps_spent) ∧
    (¬(tb.needs_epsilon = true ∧ (pe = none ∨ pe = some 0)) →
      get_train_data tb pe eps =
        if eps - tb.eps_spent < 1/100 then .error .budget
        else .ok (eps - tb.eps_spent)) := by
  unfold get_train_data
  rw [hfc]
  simp only [Bool.false_eq_true, if_false]
  by_cases hb : (tb.needs_epsilon && (pe == none || pe == some 0)) = true
  · rw [if_pos hb]
    constructor
    · intro e2 h; cases h
    · intro hne
      exfalso
      simp only [Bool.and_eq_true, Bool.or_eq_true, beq_iff_eq] at hb
      exact hne hb
  · rw [if_neg hb, if_pos hsp]
    constructor
    · intro e2 h
      revert h
      split
      · intro h; cases h
      · intro h; cases h; rfl
    · intro _; rfl

/-- C2: in `GEMSynthesizer.fit`, the epsilon the table transformer spends
inferring bounds is subtracted from the adapter's budget before the `GEM`
optimizer is constructed — whenever fit reaches the optimizer, the training
epsilon it receives is `epsilon - eps_spent` — and if that remainder is below
the fixed floor `0.01`, fit aborts with `BudgetExhaustedError` instead of
proceeding to train. -/
theorem gem_budget_spec (st : AdapterState) (tb : TransformerBehavior)
    (pe : Option Rat) (cards : List (Option Nat)) (ow : Nat) (df : Df)
    (hfc : tb.fit_complete = false) (hsp : 0 < tb.eps_spent) :
    (∀ r : GEMFitResult, GEMfit st tb pe cards ow df = .ok r →
      r.trainEpsilon = st.base.epsilon - tb.eps_spent) ∧
    (categoricalCheck st.base.thresh df = true →
      (∃ s, applySlide st.base.slide_range df = .ok s) →
      ¬(tb.needs_epsilon = true ∧ (pe = none ∨ pe = some 0)) →
      st.base.epsilon - tb.eps_spent < 1/100 →
      GEMfit st tb pe cards ow df = .error .budget) := by
  obtain ⟨hok, hflow⟩ := get_train_data_spec tb pe st.base.epsilon hfc hsp
  constructor
  · intro r hr
    unfold GEMfit at hr
    revert hr
    split
    · intro hr; cases hr
    · split
      · intro hr; cases hr
      · split
        next hgt =>
          intro hr; cases hr
        next e2 hgt =>
          split
          · intro hr; cases hr
          · split
            · intro hr; cases hr
            · intro hr
              cases hr
              exact hok e2 hgt
  · intro hchk ⟨s, hsl⟩ hne hlow
    unfold GEMfit
    rw [hchk]
    simp only [Bool.not_true, Bool.false_eq_true, if_false]
    obtain ⟨slid, rt⟩ := s
    rw [hsl]
    dsimp only
    rw [hflow hne, if_pos hlow]

/-- Witness for C2: with `epsilon = 0.02` and a transformer spend of
`0.015`, the remainder `0.005` is below the floor and the GEM fit aborts
with `BudgetExhaustedError`. -/
theorem gem_budget_spec_witness :
    GEMfit ⟨⟨1/50, false, 1/20, none⟩,
        [("k", .vInt 3), ("T", .vInt 100), ("recycle", .vBool true), ("verbose", .vBool false)]⟩
      ⟨false, true, 3/200⟩ (some (3/200)) [some 2] 1 [("a", List.replicate 30 0)]
      = .error .budget :=
  (gem_budget_spec ⟨⟨1/50, false, 1/20, none⟩,
        [("k", .vInt 3), ("T", .vInt 100), ("recycle", .vBool true), ("verbose", .vBool false)]⟩
      ⟨false, true, 3/200⟩ (some (3/200)) [some 2] 1 [("a", List.replicate 30 0)]
      (by decide) (by decide)).2 (by decide) ⟨([("a", List.replicate 30 0)], none), by decide⟩
      (by decide) (by decide)

/-! ## C8 -/

/-- An adapter state with its epsilon replaced (everything else unchanged);
used to express that the binning step is independent of the privacy budget. -/
def setEpsilon (st : AdapterState) (e : Rat) : AdapterState :=
  ⟨⟨e, st.base.slide_range, st.base.thresh, st.base.range_transform⟩, st.opts⟩

/-- Reading an option from a cons cell with a different name skips it. -/
theorem getOpt_cons_ne {n m : String} (hne : m ≠ n) (d : PyVal)
    (l : List (String × PyVal)) : getOpt ((m, d) :: l) n = getOpt l n := by
  unfold getOpt
  rw [List.find?_cons_of_neg]
  simpa using hne

/-- C8: during `PrivBayes.fit`, every column whose distinct-value count
strictly exceeds `privbayes_limit` (default `20`) is replaced by the
quantile-binning of that column into `privbayes_bins` (default `10`) bins,
columns at or below the limit are left unbinned, and the binning happens
before any privacy budget is spent: the dataframe handed to the describer is
a function of the data alone (unchanged under any replacement of the
adapter's epsilon), while the describer itself is invoked with the adapter's
full epsilon. -/
theorem privbayes_binning_spec (binFn : Col → Int → Col) (st : AdapterState)
    (df slid : Df) (rt : Option Transform) (e2 : Rat) (r r2 : Df × Rat)
    (eps : PyVal) (opts : List (String × PyVal)) (st2 : AdapterState)
    (happ : applySlide st.base.slide_range df = .ok (slid, rt))
    (hr : privBayesFit binFn st df = .ok r)
    (hr2 : privBayesFit binFn (setEpsilon st e2) df = .ok r2)
    (hcon : construct .PrivBayes eps opts = .ok st2)
    (hnl : "privbayes_limit" ∉ opts.map Prod.fst)
    (hnb : "privbayes_bins" ∉ opts.map Prod.fst) :
    r.2 = st.base.epsilon ∧
    (∀ i : Nat, r.1[i]? = (slid[i]?).map (fun p =>
      if (nunique p.2 : Int) > st.optInt "privbayes_limit"
      then (p.1, binFn p.2 (st.optInt "privbayes_bins")) else p)) ∧
    r2.1 = r.1 ∧ r2.2 = e2 ∧
    st2.optInt "privbayes_limit" = 20 ∧ st2.optInt "privbayes_bins" = 10 := by
  have hfit : ∀ (st3 : AdapterState) (r3 : Df × Rat),
      st3.base.slide_range = st.base.slide_range →
      st3.opts = st.opts →
      privBayesFit binFn st3 df = .ok r3 →
      r3.2 = st3.base.epsilon ∧
      r3.1 = privBayesBin binFn (st.optInt "privbayes_limit")
        (st.optInt "privbayes_bins") slid := by
    intro st3 r3 hsr hopts h3
    unfold privBayesFit at h3
    rw [hsr, happ] at h3
    dsimp only at h3
    revert h3
    split
    · intro h3; cases h3
    · intro h3
      cases h3
      unfold AdapterState.optInt
      rw [hopts]
      exact ⟨rfl, rfl⟩
  obtain ⟨hre, hrb⟩ := hfit st r rfl rfl hr
  obtain ⟨hr2e, hr2b⟩ := hfit (setEpsilon st e2) r2 rfl rfl hr2
  have hdef : st2.optInt "privbayes_limit" = 20 ∧ st2.optInt "privbayes_bins" = 10 := by
    have htab := construct_ok_opts hcon
    obtain ⟨l2, hopts, htab2⟩ := processTable_head_default htab (getOpt_not_mem hnl)
    obtain ⟨l3, hopts2, _⟩ := processTable_head_default htab2 (getOpt_not_mem hnb)
    unfold AdapterState.optInt
    rw [hopts, hopts2, getOpt_cons_self, getOpt_cons_ne (by decide), getOpt_cons_self]
    exact ⟨rfl, rfl⟩
  refine ⟨hre, ?_, hr2b.trans hrb.symm, hr2e, hdef⟩
  intro i
  rw [hrb]
  unfold privBayesBin
  rw [List.getElem?_map]

/-- Witness for C8: on the thirty-value column of `dfEx` (distinct count 30,
above the default limit 20), the fit's describer input is the binned column
and the epsilon passed is the adapter's full budget, unchanged when the
budget is replaced by `7`. -/
theorem privbayes_binning_spec_witness :
    ((privBayesBin qcutMidEx 20 10 dfEx, (1 : Rat)).2 = pbStateEx.base.epsilon) ∧
    (∀ i : Nat, (privBayesBin qcutMidEx 20 10 dfEx, (1 : Rat)).1[i]? =
      (dfEx[i]?).map (fun p =>
        if (nunique p.2 : Int) > pbStateEx.optInt "privbayes_limit"
        then (p.1, qcutMidEx p.2 (pbStateEx.optInt "privbayes_bins")) else p)) ∧
    (privBayesBin qcutMidEx 20 10 dfEx, (7 : Rat)).1 = (privBayesBin qcutMidEx 20 10 dfEx, (1 : Rat)).1 ∧
    (privBayesBin qcutMidEx 20 10 dfEx, (7 : Rat)).2 = (7 : Rat) ∧
    pbStateEx.optInt "privbayes_limit" = 20 ∧ pbStateEx.optInt "privbayes_bins" = 10 :=
  privbayes_binning_spec qcutMidEx pbStateEx dfEx dfEx none 7
    (privBayesBin qcutMidEx 20 10 dfEx, 1) (privBayesBin qcutMidEx 20 10 dfEx, 7)
    (.vFloat 1) [("thresh", .vFloat (1/2))] pbStateEx
    (by decide) (by decide) (by decide) (by decide) (by decide) (by decide)

/-! ## C4 -/

/-- The MST adapter state produced by `MSTSynthesizer(epsilon=1.0)`: all
options at their defaults, `slide_range = False`, `range_transform = None`. -/
def mstStateEx : AdapterState :=
  ⟨⟨1, false, 1/20, none⟩,
   [("preprocess_factor", .vFloat (1/20)), ("delta", .vFloat (1/1000000000)),
    ("verbose", .vBool false)]⟩

/-- C4 counterexample: the claim says `sample` on a freshly constructed,
never-fit adapter raises `StateError` for every variant — but with the
default `slide_range = False`, the freshly constructed MST adapter's `sample`
performs no unfit check of its own: it delegates to the wrapped mechanism and
returns whatever that yields (here a mechanism behaviour that returns a row),
with no `StateError`. -/
theorem unfit_sample_counterexample :
    construct .MST (.vFloat 1) [] = .ok mstStateEx ∧
    mstStateEx.base.slide_range = false ∧
    mstStateEx.base.range_transform = none ∧
    adapterSample mstStateEx mstStateEx.base.range_transform
      (fun _ => .ok [("a", [0])]) 5 = .ok [("a", [0])] := by
  refine ⟨by decide, rfl, rfl, by decide⟩

/-- C4 (amended): the adapters' own unfit guard is conditional.  When
`slide_range` is enabled and no range transform has been recorded (as on a
freshly constructed instance), the backward-transform step of `sample` raises
`StateError` (after the wrapped mechanism's draw returns); and the GEM
variant's `sample` fails when its generator is absent (never fit).  With
`slide_range` disabled, the non-GEM adapters delegate to the wrapped
mechanism without any unfit check of their own. -/
theorem unfit_sample_guard :
    (∀ (st : AdapterState) (mech : Nat → Except Err Df) (n : Nat) (d : Df),
      st.base.slide_range = true → mech n = .ok d →
      adapterSample st none mech n = .error .state) ∧
    (∀ (sr : Bool) (rt : Option Transform) (n : Nat),
      GEMsample none sr rt n = .error .state) ∧
    (∀ (st : AdapterState) (mech : Nat → Except Err Df) (n : Nat),
      st.base.slide_range = false →
      adapterSample st none mech n = mech n) := by
  refine ⟨?_, ?_, ?_⟩
  · intro st mech n d hsr hm
    unfold adapterSample
    rw [hm, hsr]
    rfl
  · intro sr rt n
    rfl
  · intro st mech n hsr
    unfold adapterSample
    cases hm : mech n with
    | error e => rfl
    | ok d =>
      rw [hsr]
      rfl

/-- Witness for C4 (amended): a never-fit adapter with `slide_range = True`
raises `StateError` from `sample`; a never-fit GEM adapter fails in `sample`;
and a never-fit adapter with `slide_range = False` returns the mechanism's
draw unchanged. -/
theorem unfit_sample_guard_witness :
    adapterSample ⟨⟨1, true, 1/20, none⟩, []⟩ none (fun _ => .ok [("a", [0])]) 3
      = .error .state ∧
    GEMsample none false none 3 = .error .state ∧
    adapterSample mstStateEx none (fun _ => .ok [("a", [0])]) 3
      = (fun _ => (.ok [("a", [0])] : Except Err Df)) 3 :=
  ⟨unfit_sample_guard.1 ⟨⟨1, true, 1/20, none⟩, []⟩ (fun _ => .ok [("a", [0])]) 3
      [("a", [0])] rfl rfl,
   unfit_sample_guard.2.1 false none 3,
   unfit_sample_guard.2.2 mstStateEx (fun _ => .ok [("a", [0])]) 3 rfl⟩

/-! ## C1 -/

/-- Lookup skips an entry with a different name. -/
theorem lookupT_cons_ne {c : String} {e : String × Int} (hne : e.1 ≠ c) (t : Transform) :
    lookupT (e :: t) c = lookupT t c := by
  unfold lookupT
  rw [List.find?_cons_of_neg]
  simpa using hne

/-- A name recorded by no transform entry looks up to nothing. -/
theorem lookupT_not_mem {t : Transform} {c : String}
    (h : c ∉ t.map Prod.fst) : lookupT t c = none := by
  induction t with
  | nil => rfl
  | cons e rest ih =>
    have hne : e.1 ≠ c := fun hc =>
      h (hc ▸ List.mem_map_of_mem Prod.fst (List.mem_cons_self ..))
    rw [lookupT_cons_ne hne]
    exact ih (fun hc => h (List.mem_cons_of_mem _ hc))

/-- Restoring a column whose name an entry does not carry ignores the
entry. -/
theorem restoreCol_cons_ne {q : String × Col} {e : String × Int} (hne : e.1 ≠ q.1)
    (t : Transform) :
    restoreCol (e :: t) q = restoreCol t q := by
  unfold restoreCol
  rw [lookupT_cons_ne hne]

/-- Shape of the forward pass on one column: the name is preserved, and
either the column's (positive) minimum was subtracted and recorded, or the
column is untouched and unrecorded. -/
theorem slideCol_spec {p : String × Col} {r : (String × Col) × Option (String × Int)}
    (h : slideCol p = some r) :
    r.1.1 = p.1 ∧
    ((∃ m : Int, 0 < m ∧ r.2 = some (p.1, m) ∧ r.1.2 = p.2.map (fun x => x - m)) ∨
      (r.2 = none ∧ r.1 = p)) := by
  unfold slideCol at h
  revert h
  split
  · intro h; cases h
  next m hmin =>
    split
    next hpos =>
      intro h
      cases h
      exact ⟨rfl, Or.inl ⟨m, hpos, rfl, rfl⟩⟩
    next hpos =>
      intro h
      cases h
      exact ⟨rfl, Or.inr ⟨rfl, rfl⟩⟩

/-- The forward pass preserves column names and order. -/
theorem slideAll_names {df : Df} {l : List ((String × Col) × Option (String × Int))}
    (h : slideAll df = some l) :
    l.map (fun r => r.1.1) = df.map Prod.fst := by
  induction df generalizing l with
  | nil => cases h; rfl
  | cons p rest ih =>
    unfold slideAll at h
    revert h
    split
    next r rs hsc hsa =>
      intro h
      cases h
      simp only [List.map_cons]
      rw [(slideCol_spec hsc).1, ih hsa]
    next => intro h; cases h

/-- Every recorded transform entry carries the name of one of the input
columns. -/
theorem slideAll_transform_names {df : Df}
    {l : List ((String × Col) × Option (String × Int))}
    (h : slideAll df = some l) :
    ∀ e ∈ l.filterMap Prod.snd, e.1 ∈ df.map Prod.fst := by
  induction df generalizing l with
  | nil => cases h; intro e he; cases he
  | cons p rest ih =>
    unfold slideAll at h
    revert h
    split
    next r rs hsc hsa =>
      intro h
      cases h
      intro e he
      rw [List.filterMap_cons] at he
      obtain ⟨-, hshape⟩ := slideCol_spec hsc
      rcases hshape with ⟨m, -, hsnd, -⟩ | ⟨hsnd, -⟩
      · rw [hsnd] at he
        rcases List.mem_cons.mp he with he | he
        · subst he
          exact List.mem_cons_self ..
        · exact List.mem_cons_of_mem _ (ih hsa e he)
      · rw [hsnd] at he
        exact List.mem_cons_of_mem _ (ih hsa e he)
    next => intro h; cases h

/-- Core of the round trip: with distinct column names, the backward pass
over the forward pass's dataset and mapping restores the input. -/
theorem backward_slideAll {df : Df} {l : List ((String × Col) × Option (String × Int))}
    (hnd : (df.map Prod.fst).Nodup) (h : slideAll df = some l) :
    slide_range_backward (l.map Prod.fst) (l.filterMap Prod.snd) = df := by
  induction df generalizing l with
  | nil => cases h; rfl
  | cons p rest ih =>
    rw [List.map_cons, List.nodup_cons] at hnd
    obtain ⟨hp1, hnd'⟩ := hnd
    unfold slideAll at h
    revert h
    split
    next r rs hsc hsa =>
      intro h
      cases h
      obtain ⟨hname, hshape⟩ := slideCol_spec hsc
      have htail_names : ∀ q ∈ rs.map Prod.fst, q.1 ∈ rest.map Prod.fst := by
        intro q hq
        obtain ⟨rr, hrr, hrq⟩ := List.mem_map.mp hq
        rw [← hrq, ← slideAll_names hsa]
        exact List.mem_map_of_mem _ hrr
      have hnotin : p.1 ∉ (rs.filterMap Prod.snd).map Prod.fst := by
        intro hmem
        obtain ⟨e, he, heq⟩ := List.mem_map.mp hmem
        exact hp1 (heq ▸ slideAll_transform_names hsa e he)
      rcases hshape with ⟨m, hpos, hsnd, hcol⟩ | ⟨hsnd, hr1⟩
      · -- column touched: entry `(p.1, m)` heads the transform
        have hlk : lookupT ((p.1, m) :: rs.filterMap Prod.snd) r.1.1 = some m := by
          rw [hname]
          unfold lookupT
          rw [List.find?_cons_of_pos]
          · rfl
          · simp
        have hhead : restoreCol ((p.1, m) :: rs.filterMap Prod.snd) r.1 = p := by
          unfold restoreCol
          rw [hlk]
          dsimp only
          refine Prod.ext hname ?_
          dsimp only
          rw [hcol, List.map_map]
          rw [show ((fun x : Int => x + m) ∘ fun x : Int => x - m) = fun x : Int => x from
            funext fun x => Int.sub_add_cancel x m]
          exact List.map_id' p.2
        have htail : (rs.map Prod.fst).map (restoreCol ((p.1, m) :: rs.filterMap Prod.snd))
            = rest := by
          have hcongr : ∀ q ∈ rs.map Prod.fst,
              restoreCol ((p.1, m) :: rs.filterMap Prod.snd) q
                = restoreCol (rs.filterMap Prod.snd) q := by
            intro q hq
            refine restoreCol_cons_ne ?_ _
            intro hc
            refine hp1 ?_
            rw [show p.1 = q.1 from hc]
            exact htail_names q hq
          rw [List.map_congr_left hcongr]
          exact ih hnd' hsa
        unfold slide_range_backward at htail ⊢
        rw [List.map_cons, List.filterMap_cons, hsnd]
        dsimp only
        rw [List.map_cons, hhead, htail]
      · -- column untouched: no entry recorded
        have hhead : restoreCol (rs.filterMap Prod.snd) r.1 = p := by
          rw [hr1]
          unfold restoreCol
          rw [lookupT_not_mem hnotin]
        have htail : (rs.map Prod.fst).map (restoreCol (rs.filterMap Prod.snd)) = rest := by
          have := ih hnd' hsa
          unfold slide_range_backward at this
          exact this
        unfold slide_range_backward
        rw [List.map_cons, List.filterMap_cons, hsnd]
        dsimp only
        rw [List.map_cons, hhead, htail]
    next => intro h; cases h

/-- C1: for every dataset with distinct column names and nonempty columns
(so that Python's `min` is defined), the backward range transform applied to
the forward pass's dataset and mapping restores the dataset exactly:
`slide_range_backward (slide_range_forward df).dataset
(slide_range_forward df).mapping = df` element-wise — the forward pass
subtracts a column's minimum only when it is strictly positive (recording
it), leaves columns with minimum at most zero untouched and unrecorded, and
the backward pass adds back exactly the recorded amounts. -/
theorem slide_range_round_trip (df d : Df) (t : Transform)
    (hnd : (df.map Prod.fst).Nodup)
    (h : slide_range_forward df = some (d, t)) :
    slide_range_backward d t = df := by
  unfold slide_range_forward at h
  cases hsa : slideAll df with
  | none => rw [hsa] at h; cases h
  | some l =>
    rw [hsa] at h
    cases h
    exact backward_slideAll hnd hsa

/-- Witness for C1: on a dataset with one strictly positive column (shifted
and recorded) and one column containing a negative value (untouched,
unrecorded), the backward pass restores the input exactly. -/
theorem slide_range_round_trip_witness :
    slide_range_forward [("a", [3, 5]), ("b", [-2, 4])]
      = some ([("a", [0, 2]), ("b", [-2, 4])], [("a", 3)]) ∧
    slide_range_backward [("a", [0, 2]), ("b", [-2, 4])] [("a", 3)]
      = [("a", [3, 5]), ("b", [-2, 4])] :=
  ⟨by decide,
   slide_range_round_trip [("a", [3, 5]), ("b", [-2, 4])]
     [("a", [0, 2]), ("b", [-2, 4])] [("a", 3)] (by decide) (by decide)⟩

end SynRD
